import Mathlib

/-!
Verification of the network-adapter class-extension core against its
natural-language specification.

The development shallowly embeds the two subsystems the claims are about:

* the packet ring buffer (`cx/xlat/nxringbuffer.cpp`), wrapping a `NET_RING`
  with producer/consumer cursor operations and diagnostic counters;
* the verifier routines (`cx/sys/verifier.cpp`) that report fatal contract
  violations, and the device reset / power-reference bookkeeping declared in
  `cx/sys/nxdevice.hpp`.

Machine integers (`UINT32`, `ULONG`) are embedded as `Nat`; in every
expression transliterated from the source, the operands are shown (or
assumed via a validity predicate) to be small enough that unsigned
wraparound cannot occur, so `Nat` arithmetic coincides with the 32-bit
arithmetic of the source.  Pointer-returning functions are embedded as
`Option`-returning functions, `none` standing for `nullptr`.
-/

/-- The `NET_RING` descriptor ring shared with the hardware.  The header that
declares it is not among the sources; the fields used by
`cx/xlat/nxringbuffer.cpp` are the two shared cursors, the element count
and the packet storage, which we keep as a total function from indices to
packet values (the C code stores packets inline in the ring memory).
`NextOSIndex` is the third, OS-private cursor read and written through the
`GetNextOSIndex()` accessor of the missing `NxRingBuffer.hpp`
(`nxringbuffer.cpp:59` takes a reference to it); it trails `BeginIndex`
and marks the next packet the OS will take back from the NIC. -/
structure NET_RING (α : Type) where
  BeginIndex : Nat
  EndIndex : Nat
  NextOSIndex : Nat
  NumberOfElements : Nat
  slots : Nat → α

/-- The diagnostic counter block `NxRingBufferCounters`, with exactly the
fields written by `nxringbuffer.cpp`. -/
structure NxRingBufferCounters where
  NumberOfNetPacketsProduced : Nat
  NumberOfNetPacketsConsumed : Nat
  CumulativeRingBufferDepthInLastInterval : Nat
  IterationCountInLastInterval : Nat
  RingbufferEmptyCount : Nat
  RingbufferFullyOccupiedCount : Nat
  RingbufferPartiallyOccupiedCount : Nat

/-- The `NxRingBuffer` wrapper object: the wrapped ring `m_rb` plus the
counter block `m_rbCounters`. -/
structure NxRingBuffer (α : Type) where
  m_rb : NET_RING α
  m_rbCounters : NxRingBufferCounters

/-- Modelled from the spec: `NetRingIncrementIndex` is declared in a ring
header that is not among the sources; per the spec the cursors are
"advanced modulo capacity". -/
def NetRingIncrementIndex (rb : NET_RING α) (index : Nat) : Nat :=
  (index + 1) % rb.NumberOfElements

/-- Modelled from the spec: `NetRingGetPacketAtIndex` is declared in a ring
header that is not among the sources; it returns the packet stored at the
given index of the ring. -/
def NetRingGetPacketAtIndex (rb : NET_RING α) (index : Nat) : α :=
  rb.slots index

/-- `NxRingBuffer::Count`: the capacity of the ring
(`Get()->NumberOfElements`). -/
def NxRingBuffer.Count (x : NxRingBuffer α) : Nat :=
  x.m_rb.NumberOfElements

/-- `NxRingBuffer::GetRingbufferDepth`:
`(m_rb->EndIndex + Count() - m_rb->BeginIndex) % Count()`.  The source
computes this in `UINT32` arithmetic; whenever both cursors are valid
indices we have `BeginIndex <= EndIndex + Count()`, so the `Nat`
subtraction below agrees with the unsigned subtraction of the source. -/
def NxRingBuffer.GetRingbufferDepth (x : NxRingBuffer α) : Nat :=
  (x.m_rb.EndIndex + x.Count - x.m_rb.BeginIndex) % x.Count

/-- Modelled from the spec: `AvailablePackets` and its `Count` come from
`NxRingBuffer.hpp` / `NxRingBufferRange.hpp`, which are not among the
sources.  Per the spec the producer peek succeeds exactly when
`occupancy < capacity - 1` (one slot stays reserved), so the number of
slots still available to the producer is `capacity - 1 - occupancy`. -/
def NxRingBuffer.AvailablePackets_Count (x : NxRingBuffer α) : Nat :=
  x.Count - 1 - x.GetRingbufferDepth

/-- `NxRingBuffer::GetNextPacketToGiveToNic`: returns `nullptr` when no
packet can be given to the NIC ("Cant give the last packet to the NIC"),
otherwise the packet at `m_rb->EndIndex`. -/
def NxRingBuffer.GetNextPacketToGiveToNic (x : NxRingBuffer α) : Option α :=
  if x.AvailablePackets_Count = 0 then
    none
  else
    some (NetRingGetPacketAtIndex x.m_rb x.m_rb.EndIndex)

/-- `NxRingBuffer::GiveNextPacketToNic`: the producer commit,
`m_rb->EndIndex = NetRingIncrementIndex(m_rb, m_rb->EndIndex)`.  The
source asserts `AvailablePackets().Count() != 0`; the contract "commit only
after a matching successful peek" is imposed where sequences of operations
are formed. -/
def NxRingBuffer.GiveNextPacketToNic (x : NxRingBuffer α) : NxRingBuffer α :=
  { x with m_rb := { x.m_rb with
      EndIndex := NetRingIncrementIndex x.m_rb x.m_rb.EndIndex } }

/-- Modelled from the spec and the call site: the accessor
`GetNextOSIndex()` is declared in `NxRingBuffer.hpp`, which is not among
the sources; `nxringbuffer.cpp:59` binds a mutable reference to it, so it
denotes OS-private cursor storage distinct from the two shared ring
cursors. -/
def NxRingBuffer.GetNextOSIndex (x : NxRingBuffer α) : Nat :=
  x.m_rb.NextOSIndex

/-- `NxRingBuffer::TakeNextPacketFromNic` (`nxringbuffer.cpp:57-69`):
binds `index` to `GetNextOSIndex()`; returns `nullptr` when
`index == m_rb->BeginIndex` ("We have processed all the packets");
otherwise returns the packet at `index` and advances `index` (that is, the
OS cursor) by one modulo capacity.  `BeginIndex` and `EndIndex` are never
written; `BeginIndex` is advanced by the NIC side as it completes packets,
which is outside this function. -/
def NxRingBuffer.TakeNextPacketFromNic (x : NxRingBuffer α) :
    Option α × NxRingBuffer α :=
  if x.GetNextOSIndex = x.m_rb.BeginIndex then
    (none, x)
  else
    (some (NetRingGetPacketAtIndex x.m_rb x.GetNextOSIndex),
     { x with m_rb := { x.m_rb with
         NextOSIndex := NetRingIncrementIndex x.m_rb x.GetNextOSIndex } })

/-- Writing a packet value into a slot of the ring: this is what the caller
of `GetNextPacketToGiveToNic` does through the returned pointer before
committing with `GiveNextPacketToNic`. -/
def NxRingBuffer.writeSlot (x : NxRingBuffer α) (i : Nat) (v : α) :
    NxRingBuffer α :=
  { x with m_rb := { x.m_rb with
      slots := fun j => if j = i then v else x.m_rb.slots j } }

/-- One full producer cycle: peek with `GetNextPacketToGiveToNic`; on
success fill the returned slot (the one at `m_rb->EndIndex`) with `v` and
commit with `GiveNextPacketToNic`; on failure produce nothing. -/
def NxRingBuffer.produceOne (x : NxRingBuffer α) (v : α) :
    Option (NxRingBuffer α) :=
  match x.GetNextPacketToGiveToNic with
  | none => none
  | some _ => some ((x.writeSlot x.m_rb.EndIndex v).GiveNextPacketToNic)

/-- Produce a list of values in order, failing if any peek fails. -/
def NxRingBuffer.produceMany (x : NxRingBuffer α) :
    List α → Option (NxRingBuffer α)
  | [] => some x
  | v :: vs =>
    match x.produceOne v with
    | none => none
    | some x1 => x1.produceMany vs

/-- Perform `n` consumer cycles with `TakeNextPacketFromNic`, collecting the
returned packets in order; an empty take contributes nothing. -/
def NxRingBuffer.consumeMany (x : NxRingBuffer α) :
    Nat → List α × NxRingBuffer α
  | 0 => ([], x)
  | n + 1 =>
    match x.TakeNextPacketFromNic with
    | (none, x1) => ([], x1)
    | (some v, x1) =>
      let p := x1.consumeMany n
      (v :: p.1, p.2)

/-- Modelled from the spec: the NIC side of the ring is not in the sources
(it is the hardware-facing client).  Per the spec (section 5), `beginIndex`
is written only by the consumer of the shared region: the NIC consumes a
packet it was given and publishes its completion by advancing
`BeginIndex` by one modulo capacity. -/
def NxRingBuffer.nicCompleteOne (x : NxRingBuffer α) : NxRingBuffer α :=
  { x with m_rb := { x.m_rb with
      BeginIndex := NetRingIncrementIndex x.m_rb x.m_rb.BeginIndex } }

/-- The NIC completes `k` packets in sequence. -/
def NxRingBuffer.nicCompleteMany (x : NxRingBuffer α) :
    Nat → NxRingBuffer α
  | 0 => x
  | k + 1 => (x.nicCompleteOne).nicCompleteMany k

/-- The number of packets the NIC has completed but the OS has not yet
taken back: the distance from the OS cursor to `BeginIndex`. -/
def NxRingBuffer.osPendingDepth (x : NxRingBuffer α) : Nat :=
  (x.m_rb.BeginIndex + x.Count - x.GetNextOSIndex) % x.Count

/-- The packets `TakeNextPacketFromNic` will return next, in order: the
slots from the OS cursor up to `BeginIndex`. -/
def NxRingBuffer.osContents (x : NxRingBuffer α) : List α :=
  (List.range x.osPendingDepth).map
    (fun i => x.m_rb.slots ((x.GetNextOSIndex + i) % x.Count))

/-- `NxRingBuffer::UpdateRingbufferDepthCounters`: bumps the iteration
count, accumulates the depth, and bumps exactly one of the three occupancy
classification counters. -/
def NxRingBuffer.UpdateRingbufferDepthCounters (x : NxRingBuffer α) :
    NxRingBuffer α :=
  let depth := x.GetRingbufferDepth
  let c0 := { x.m_rbCounters with
    IterationCountInLastInterval :=
      x.m_rbCounters.IterationCountInLastInterval + 1
    CumulativeRingBufferDepthInLastInterval :=
      x.m_rbCounters.CumulativeRingBufferDepthInLastInterval + depth }
  let c1 :=
    if depth = 0 then
      { c0 with RingbufferEmptyCount := c0.RingbufferEmptyCount + 1 }
    else if depth = x.Count - 1 then
      { c0 with RingbufferFullyOccupiedCount :=
          c0.RingbufferFullyOccupiedCount + 1 }
    else
      { c0 with RingbufferPartiallyOccupiedCount :=
          c0.RingbufferPartiallyOccupiedCount + 1 }
  { x with m_rbCounters := c1 }

/-- `NxRingBuffer::UpdateRingbufferPacketCounters`: adds the delta to the
cumulative produced/consumed totals. -/
def NxRingBuffer.UpdateRingbufferPacketCounters (x : NxRingBuffer α)
    (Delta : NxRingBufferCounters) : NxRingBuffer α :=
  { x with m_rbCounters := { x.m_rbCounters with
      NumberOfNetPacketsProduced :=
        x.m_rbCounters.NumberOfNetPacketsProduced +
          Delta.NumberOfNetPacketsProduced
      NumberOfNetPacketsConsumed :=
        x.m_rbCounters.NumberOfNetPacketsConsumed +
          Delta.NumberOfNetPacketsConsumed } }

/-- `NxRingBuffer::ResetRingbufferCounters`: zeroes the five
interval-diagnostic counters and nothing else. -/
def NxRingBuffer.ResetRingbufferCounters (x : NxRingBuffer α) :
    NxRingBuffer α :=
  { x with m_rbCounters := { x.m_rbCounters with
      CumulativeRingBufferDepthInLastInterval := 0
      IterationCountInLastInterval := 0
      RingbufferEmptyCount := 0
      RingbufferFullyOccupiedCount := 0
      RingbufferPartiallyOccupiedCount := 0 } }

/-- The cursor and counter operations of the ring buffer, as atomic events
of an operation sequence.  `give` is the producer commit, executed only
after a matching successful peek (the source asserts this with
`WIN_ASSERT`), so it is guarded by the success of
`GetNextPacketToGiveToNic`; `peekGive` is the pure producer peek; `take`
is the fused consumer peek+commit. -/
inductive RBOp where
  | peekGive : RBOp
  | give : RBOp
  | take : RBOp
  | updateDepth : RBOp
  | updatePacket : Nat → Nat → RBOp
  | resetCounters : RBOp
deriving DecidableEq

/-- Execute one ring-buffer operation. -/
def NxRingBuffer.stepRB (x : NxRingBuffer α) : RBOp → NxRingBuffer α
  | .peekGive => x
  | .give =>
    if (x.GetNextPacketToGiveToNic).isSome then x.GiveNextPacketToNic else x
  | .take => (x.TakeNextPacketFromNic).2
  | .updateDepth => x.UpdateRingbufferDepthCounters
  | .updatePacket p c =>
    x.UpdateRingbufferPacketCounters
      { NumberOfNetPacketsProduced := p
        NumberOfNetPacketsConsumed := c
        CumulativeRingBufferDepthInLastInterval := 0
        IterationCountInLastInterval := 0
        RingbufferEmptyCount := 0
        RingbufferFullyOccupiedCount := 0
        RingbufferPartiallyOccupiedCount := 0 }
  | .resetCounters => x.ResetRingbufferCounters

/-- Execute a sequence of ring-buffer operations, left to right. -/
def NxRingBuffer.runRB (x : NxRingBuffer α) : List RBOp → NxRingBuffer α
  | [] => x
  | op :: ops => (x.stepRB op).runRB ops

/-- Well-formedness of a ring-buffer state: positive capacity and both
cursors valid indices in `[0, capacity)`. -/
def NxRingBuffer.Valid (x : NxRingBuffer α) : Prop :=
  0 < x.Count ∧ x.m_rb.BeginIndex < x.Count ∧ x.m_rb.EndIndex < x.Count

instance (x : NxRingBuffer α) : Decidable x.Valid :=
  inferInstanceAs (Decidable (_ ∧ _ ∧ _))

/-- The abstract FIFO contents of the ring: the packets in the occupied
region, starting at the consumer cursor. -/
def NxRingBuffer.contents (x : NxRingBuffer α) : List α :=
  (List.range x.GetRingbufferDepth).map
    (fun i => x.m_rb.slots ((x.m_rb.BeginIndex + i) % x.Count))

/-! ## Verifier routines (`cx/sys/verifier.cpp`) -/

/-- The failure codes used by the verifier routines relevant here. -/
inductive FailureCode where
  | CorruptedPrivateGlobals : FailureCode
  | RemovingDeviceWithAdapters : FailureCode
  | BadQueueInitContext : FailureCode
  | CreatingNetQueueFromWrongThread : FailureCode
  | QueueAlreadyCreated : FailureCode
deriving DecidableEq

/-- The two reporting behaviors of `Verifier_ReportViolation`. -/
inductive VerifierAction where
  | BugcheckAlways : VerifierAction
  | DbgBreakIfDebuggerPresent : VerifierAction
deriving DecidableEq

/-- One fatal violation report: the failure code together with bugcheck
parameters 2 and 3 (parameter 4 stays reserved in the source). -/
structure Bugcheck where
  code : FailureCode
  Parameter2 : Nat
  Parameter3 : Nat
deriving DecidableEq

/-- `NetAdapterCxBugCheck`: bugchecks the system with the NetAdapterCx
bugcode; embedded as emitting one fatal violation record. -/
def NetAdapterCxBugCheck (code : FailureCode) (Parameter2 Parameter3 : Nat) :
    List Bugcheck :=
  [{ code := code, Parameter2 := Parameter2, Parameter3 := Parameter3 }]

/-- `Verifier_ReportViolation`: on `BugcheckAlways` it bugchecks; on
`DbgBreakIfDebuggerPresent` it at most breaks into a debugger, which is not
a fatal violation, so no record is emitted. -/
def Verifier_ReportViolation (Action : VerifierAction) (code : FailureCode)
    (Parameter2 Parameter3 : Nat) : List Bugcheck :=
  match Action with
  | .BugcheckAlways => NetAdapterCxBugCheck code Parameter2 Parameter3
  | .DbgBreakIfDebuggerPresent => []

/-- `Verifier_VerifyDeviceAdapterCollectionIsEmpty`: bugchecks with
`FailureCode_RemovingDeviceWithAdapters` when `AdapterCollection->Count()`
is positive; the device and collection pointers are embedded as opaque
numeric identities passed through as bugcheck parameters. -/
def Verifier_VerifyDeviceAdapterCollectionIsEmpty
    (Device AdapterCollection : Nat) (collectionCount : Nat) :
    List Bugcheck :=
  if collectionCount > 0 then
    Verifier_ReportViolation .BugcheckAlways .RemovingDeviceWithAdapters
      Device AdapterCollection
  else
    []

/-- The signature constant from `cx/sys/nxqueue.hpp`. -/
def QUEUE_CREATION_CONTEXT_SIGNATURE : Nat := 0x7840dd95

/-- The fields of `QUEUE_CREATION_CONTEXT` (`cx/sys/nxqueue.hpp`) used by
`Verifier_VerifyQueueInitContext`: the signature, the creating thread
(an opaque numeric identity) and the queue object created so far, `none`
standing for a null `wil::unique_wdf_object`. -/
structure QUEUE_CREATION_CONTEXT where
  Signature : Nat
  CurrentThread : Nat
  CreatedQueueObject : Option Nat

/-- `Verifier_VerifyQueueInitContext`: three independent checks, each
bugchecking on violation.  `currentThread` is the value of
`KeGetCurrentThread()` at the call. -/
def Verifier_VerifyQueueInitContext (NetQueueInit : QUEUE_CREATION_CONTEXT)
    (currentThread : Nat) : List Bugcheck :=
  (if NetQueueInit.Signature ≠ QUEUE_CREATION_CONTEXT_SIGNATURE then
    Verifier_ReportViolation .BugcheckAlways .BadQueueInitContext 0 0
  else []) ++
  (if NetQueueInit.CurrentThread ≠ currentThread then
    Verifier_ReportViolation .BugcheckAlways .CreatingNetQueueFromWrongThread
      0 0
  else []) ++
  (match NetQueueInit.CreatedQueueObject with
  | some obj =>
    Verifier_ReportViolation .BugcheckAlways .QueueAlreadyCreated obj 0
  | none => [])

/-! ## Device reset coordination (`cx/sys/nxdevice.hpp`) -/

/-- `ULONG const MAX_DEVICE_RESET_ATTEMPTS = 5` from `cx/sys/nxdevice.hpp`. -/
def MAX_DEVICE_RESET_ATTEMPTS : Nat := 5

/-- The reset-coordination state of an `NxDevice`: the attempt counter
`m_ResetAttempts` and the set-once hint flag
`m_FailingDeviceRequestingReset` (both declared in `cx/sys/nxdevice.hpp`). -/
structure NxDeviceResetState where
  m_ResetAttempts : Nat
  m_FailingDeviceRequestingReset : Bool
deriving DecidableEq

/-- `NxDevice::SetFailingDeviceRequestingResetFlag`: marks this device as
the failing device used to hint ACPI. -/
def SetFailingDeviceRequestingResetFlag (s : NxDeviceResetState) :
    NxDeviceResetState :=
  { s with m_FailingDeviceRequestingReset := true }

/-- Modelled from the spec: the body of `NxDevice::DispatchDeviceReset`
(`nxdevice.cpp`) is not among the sources; `cx/sys/nxdevice.hpp` only
declares it.  Per the spec, a dispatch first validates that the requested
reset type is supported (embedded as the boolean `supported`), then, while
attempts are not exhausted, increments `m_ResetAttempts` and dispatches;
once `MAX_DEVICE_RESET_ATTEMPTS` attempts have occurred, a further request
is rejected and the device is marked as the failing device requesting
reset.  The returned boolean tells whether the request was accepted. -/
def DispatchDeviceReset (s : NxDeviceResetState) (supported : Bool) :
    NxDeviceResetState × Bool :=
  if supported = false then
    (s, false)
  else if s.m_ResetAttempts < MAX_DEVICE_RESET_ATTEMPTS then
    ({ s with m_ResetAttempts := s.m_ResetAttempts + 1 }, true)
  else
    (SetFailingDeviceRequestingResetFlag s, false)

/-- Run a sequence of reset requests (each tagged with whether its reset
type is supported) from a given state. -/
def runResets (s : NxDeviceResetState) : List Bool → NxDeviceResetState
  | [] => s
  | b :: bs => runResets (DispatchDeviceReset s b).1 bs

/-- The initial reset state of a freshly created device:
`m_ResetAttempts = 0`, `m_FailingDeviceRequestingReset = FALSE`. -/
def initialResetState : NxDeviceResetState :=
  { m_ResetAttempts := 0, m_FailingDeviceRequestingReset := false }

/-! ## Power reference tracking (`cx/sys/nxdevice.hpp`) -/

/-- The power-reference accounting state: the outstanding reference count
and the failed-acquisition count `m_PowerRefFailureCount`
(`cx/sys/nxdevice.hpp`).  The reference count is an integer so that the
accounting identity holds exactly for arbitrary interleavings. -/
structure PowerRefState where
  powerRefCount : Int
  powerRefFailureCount : Nat
deriving DecidableEq

/-- Modelled from the spec: the body of `NxDevice::PowerReference`
(`nxdevice.cpp`) is not among the sources.  Per the spec, a successful
call increments `powerRefCount`; a failed call increments
`powerRefFailureCount` instead of `powerRefCount`. -/
def PowerReference (s : PowerRefState) (success : Bool) : PowerRefState :=
  if success then
    { s with powerRefCount := s.powerRefCount + 1 }
  else
    { s with powerRefFailureCount := s.powerRefFailureCount + 1 }

/-- Modelled from the spec: the body of `NxDevice::PowerDereference`
(`nxdevice.cpp`) is not among the sources.  Per the spec,
`PowerDereference(tag)` only decrements `powerRefCount`; the failure count
is drained internally when a reference is released and never feeds back
into `powerRefCount`. -/
def PowerDereference (s : PowerRefState) : PowerRefState :=
  { s with powerRefCount := s.powerRefCount - 1 }

/-- The three observable power-reference events. -/
inductive PowerRefEvent where
  | refSuccess : PowerRefEvent
  | refFailure : PowerRefEvent
  | deref : PowerRefEvent
deriving DecidableEq

/-- Execute one power-reference event. -/
def stepPower (s : PowerRefState) : PowerRefEvent → PowerRefState
  | .refSuccess => PowerReference s true
  | .refFailure => PowerReference s false
  | .deref => PowerDereference s

/-- Run a sequence of power-reference events, left to right. -/
def runPower (s : PowerRefState) : List PowerRefEvent → PowerRefState
  | [] => s
  | e :: es => runPower (stepPower s e) es

/-- The initial power-reference state: no outstanding references, no
recorded failures. -/
def initialPowerState : PowerRefState :=
  { powerRefCount := 0, powerRefFailureCount := 0 }

/-! ## Helper lemmas -/

/-- Closed form of `a % n` for `a < 2 * n`: one conditional subtraction. -/
theorem small_mod (a n : Nat) (h : a < 2 * n) :
    a % n = if a < n then a else a - n := by
  rcases Nat.lt_or_ge a n with h1 | h1
  · rw [Nat.mod_eq_of_lt h1, if_pos h1]
  · rw [if_neg (Nat.not_lt.mpr h1), Nat.mod_eq_sub_mod h1,
      Nat.mod_eq_of_lt (by omega)]

/-- The depth in closed form for valid cursors. -/
theorem depth_closed (x : NxRingBuffer α) (h : x.Valid) :
    x.GetRingbufferDepth =
      if x.m_rb.BeginIndex ≤ x.m_rb.EndIndex then
        x.m_rb.EndIndex - x.m_rb.BeginIndex
      else
        x.m_rb.EndIndex + x.Count - x.m_rb.BeginIndex := by
  obtain ⟨hn, hb, he⟩ := h
  unfold NxRingBuffer.GetRingbufferDepth
  rw [small_mod _ _ (by omega)]
  split_ifs <;> omega

/-- The depth of a valid ring is below the capacity. -/
theorem depth_lt_count (x : NxRingBuffer α) (h : x.Valid) :
    x.GetRingbufferDepth < x.Count := by
  exact Nat.mod_lt _ h.1

/-- The depth is zero exactly when the cursors coincide. -/
theorem depth_eq_zero_iff (x : NxRingBuffer α) (h : x.Valid) :
    x.GetRingbufferDepth = 0 ↔ x.m_rb.BeginIndex = x.m_rb.EndIndex := by
  obtain ⟨hn, hb, he⟩ := h
  rw [depth_closed x ⟨hn, hb, he⟩]
  constructor
  · intro hz
    by_cases hle : x.m_rb.BeginIndex ≤ x.m_rb.EndIndex
    · rw [if_pos hle] at hz; omega
    · rw [if_neg hle] at hz; omega
  · intro hbe
    rw [if_pos (Nat.le_of_eq hbe)]; omega

/-- The producer cursor sits `depth` slots past the consumer cursor. -/
theorem end_eq_begin_add_depth (x : NxRingBuffer α) (h : x.Valid) :
    x.m_rb.EndIndex = (x.m_rb.BeginIndex + x.GetRingbufferDepth) % x.Count := by
  obtain ⟨hn, hb, he⟩ := h
  rw [depth_closed x ⟨hn, hb, he⟩]
  by_cases hle : x.m_rb.BeginIndex ≤ x.m_rb.EndIndex
  · rw [if_pos hle, small_mod _ _ (by omega)]
    split_ifs <;> omega
  · rw [if_neg hle, small_mod _ _ (by omega)]
    split_ifs <;> omega

/-- Adding distinct offsets below the capacity to the same base index gives
distinct ring indices. -/
theorem add_mod_inj (n b i j : Nat) (hb : b < n) (hi : i < n) (hj : j < n)
    (h : (b + i) % n = (b + j) % n) : i = j := by
  rw [small_mod _ _ (by omega), small_mod _ _ (by omega)] at h
  split_ifs at h <;> omega

/-! ## C2: producer peek succeeds exactly below the reserved-slot bound -/

/-- C2: `GetNextPacketToGiveToNic` returns the slot at `EndIndex` if and
only if the occupancy is below `capacity - 1`; at occupancy
`capacity - 1` it returns no slot, so the producer never overwrites
unread data. -/
theorem producer_peek_slot_iff_not_full (x : NxRingBuffer α) :
    x.GetNextPacketToGiveToNic =
      if x.GetRingbufferDepth < x.Count - 1 then
        some (x.m_rb.slots x.m_rb.EndIndex)
      else
        none := by
  unfold NxRingBuffer.GetNextPacketToGiveToNic
    NxRingBuffer.AvailablePackets_Count NetRingGetPacketAtIndex
  by_cases h : x.GetRingbufferDepth < x.Count - 1
  · rw [if_pos h, if_neg (by omega)]
  · rw [if_neg h, if_pos (by omega)]

/-! ## C3: consumer take is an OS-cursor test plus OS-cursor advance -/

/-- A concrete ring for witnesses: capacity 8, shared cursors and OS cursor
at 2, slot `i` holding value `100 + i`. -/
def witnessRing : NxRingBuffer Nat :=
  { m_rb :=
      { BeginIndex := 2, EndIndex := 2, NextOSIndex := 2
        NumberOfElements := 8, slots := fun i => 100 + i }
    m_rbCounters :=
      { NumberOfNetPacketsProduced := 0, NumberOfNetPacketsConsumed := 0
        CumulativeRingBufferDepthInLastInterval := 0
        IterationCountInLastInterval := 0, RingbufferEmptyCount := 0
        RingbufferFullyOccupiedCount := 0
        RingbufferPartiallyOccupiedCount := 0 } }

/-- A variant of the witness ring in which the OS cursor differs from
`BeginIndex`: both shared cursors sit at 2 (occupancy 0) while the OS
cursor is at 3, so NIC-completed packets are still waiting to be
reclaimed. -/
def witnessRingLag : NxRingBuffer Nat :=
  { witnessRing with m_rb := { witnessRing.m_rb with NextOSIndex := 3 } }

/-- Counterexample to C3 as stated: in `witnessRingLag` the two shared
cursors coincide (`BeginIndex = EndIndex`, occupancy 0), yet
`TakeNextPacketFromNic` returns a packet (the one at the OS cursor, 3)
rather than `nullptr`: the empty test of the source is
`GetNextOSIndex() == BeginIndex`, not `BeginIndex == EndIndex`. -/
theorem consumer_take_begin_end_counterexample :
    witnessRingLag.m_rb.BeginIndex = witnessRingLag.m_rb.EndIndex ∧
    (witnessRingLag.TakeNextPacketFromNic).1 = some 103 :=
  ⟨rfl, rfl⟩

/-- C3 (amended): `TakeNextPacketFromNic` returns no packet (and leaves the
state unchanged) exactly when the OS take cursor `GetNextOSIndex()` equals
`BeginIndex` (no NIC-completed packets left to reclaim); otherwise it
returns the packet at the OS cursor and advances that cursor by one modulo
the capacity, leaving `BeginIndex` and `EndIndex` unchanged. -/
theorem consumer_take_os_cursor_spec (x : NxRingBuffer α) :
    (x.TakeNextPacketFromNic = (none, x) ↔
      x.GetNextOSIndex = x.m_rb.BeginIndex) ∧
    (x.GetNextOSIndex ≠ x.m_rb.BeginIndex →
      x.TakeNextPacketFromNic =
        (some (x.m_rb.slots x.GetNextOSIndex),
         { x with m_rb := { x.m_rb with
             NextOSIndex := (x.GetNextOSIndex + 1) % x.Count } })) := by
  constructor
  · constructor
    · intro h
      by_contra hne
      unfold NxRingBuffer.TakeNextPacketFromNic at h
      rw [if_neg hne] at h
      exact Option.noConfusion (congrArg Prod.fst h)
    · intro he
      unfold NxRingBuffer.TakeNextPacketFromNic
      rw [if_pos he]
  · intro hne
    unfold NxRingBuffer.TakeNextPacketFromNic NetRingGetPacketAtIndex
      NetRingIncrementIndex
    rw [if_neg hne]
    rfl

/-- Witness for the amended C3 at a concrete ring with reclaimable
packets: the take returns the packet at OS-cursor index 3 and advances the
OS cursor to 4. -/
theorem consumer_take_os_cursor_spec_witness :
    witnessRingLag.TakeNextPacketFromNic =
      (some (witnessRingLag.m_rb.slots witnessRingLag.GetNextOSIndex),
       { witnessRingLag with m_rb := { witnessRingLag.m_rb with
           NextOSIndex := (witnessRingLag.GetNextOSIndex + 1) %
             witnessRingLag.Count } }) :=
  (consumer_take_os_cursor_spec witnessRingLag).2 (by decide)

/-! ## C9: resetting counters leaves cursors and cumulative totals alone -/

/-- C9: `ResetRingbufferCounters` zeroes the five interval diagnostic
counters while leaving the ring (both cursors, hence the occupancy) and
the cumulative produced/consumed totals unchanged. -/
theorem reset_counters_frame (x : NxRingBuffer α) :
    (x.ResetRingbufferCounters).m_rb = x.m_rb ∧
    (x.ResetRingbufferCounters).GetRingbufferDepth = x.GetRingbufferDepth ∧
    (x.ResetRingbufferCounters).m_rbCounters.NumberOfNetPacketsProduced =
      x.m_rbCounters.NumberOfNetPacketsProduced ∧
    (x.ResetRingbufferCounters).m_rbCounters.NumberOfNetPacketsConsumed =
      x.m_rbCounters.NumberOfNetPacketsConsumed ∧
    (x.ResetRingbufferCounters).m_rbCounters.CumulativeRingBufferDepthInLastInterval = 0 ∧
    (x.ResetRingbufferCounters).m_rbCounters.IterationCountInLastInterval = 0 ∧
    (x.ResetRingbufferCounters).m_rbCounters.RingbufferEmptyCount = 0 ∧
    (x.ResetRingbufferCounters).m_rbCounters.RingbufferFullyOccupiedCount = 0 ∧
    (x.ResetRingbufferCounters).m_rbCounters.RingbufferPartiallyOccupiedCount = 0 := by
  unfold NxRingBuffer.ResetRingbufferCounters NxRingBuffer.GetRingbufferDepth
    NxRingBuffer.Count
  exact ⟨rfl, rfl, rfl, rfl, rfl, rfl, rfl, rfl, rfl⟩

/-! ## C5: device-removal precondition check on the adapter collection -/

/-- C5: `Verifier_VerifyDeviceAdapterCollectionIsEmpty` bugchecks with
`FailureCode_RemovingDeviceWithAdapters` exactly when the adapter
collection count is positive, and has no effect exactly when the
collection is empty; so a device passes the removal precondition check
only with an empty collection. -/
theorem verify_adapter_collection_empty_spec
    (Device AdapterCollection collectionCount : Nat) :
    (Verifier_VerifyDeviceAdapterCollectionIsEmpty Device AdapterCollection
        collectionCount =
      [{ code := .RemovingDeviceWithAdapters, Parameter2 := Device
         Parameter3 := AdapterCollection }] ↔ 0 < collectionCount) ∧
    (Verifier_VerifyDeviceAdapterCollectionIsEmpty Device AdapterCollection
        collectionCount = [] ↔ collectionCount = 0) := by
  unfold Verifier_VerifyDeviceAdapterCollectionIsEmpty
    Verifier_ReportViolation NetAdapterCxBugCheck
  by_cases h : collectionCount > 0
  · rw [if_pos h]
    refine ⟨⟨fun _ => h, fun _ => rfl⟩, ⟨fun heq => ?_, fun hc => ?_⟩⟩
    · exact absurd (congrArg List.length heq) (by simp)
    · omega
  · rw [if_neg h]
    refine ⟨⟨fun heq => ?_, fun hc => ?_⟩, ⟨fun _ => by omega, fun _ => rfl⟩⟩
    · exact absurd (congrArg List.length heq) (by simp)
    · omega

/-! ## C8: queue-creation context contract checks -/

/-- C8: `Verifier_VerifyQueueInitContext` reports a fatal violation exactly
when the signature is corrupted, the calling thread differs from the one
recorded in the context, or a queue object was already created from the
context; with none of the three violations it has no effect. -/
theorem verify_queue_init_context_spec (NetQueueInit : QUEUE_CREATION_CONTEXT)
    (currentThread : Nat) :
    (Verifier_VerifyQueueInitContext NetQueueInit currentThread ≠ [] ↔
      (NetQueueInit.Signature ≠ QUEUE_CREATION_CONTEXT_SIGNATURE ∨
       NetQueueInit.CurrentThread ≠ currentThread ∨
       NetQueueInit.CreatedQueueObject.isSome)) ∧
    (NetQueueInit.Signature = QUEUE_CREATION_CONTEXT_SIGNATURE →
     NetQueueInit.CurrentThread = currentThread →
     NetQueueInit.CreatedQueueObject = none →
     Verifier_VerifyQueueInitContext NetQueueInit currentThread = []) := by
  unfold Verifier_VerifyQueueInitContext Verifier_ReportViolation
    NetAdapterCxBugCheck
  constructor
  · by_cases h1 : NetQueueInit.Signature = QUEUE_CREATION_CONTEXT_SIGNATURE
    · by_cases h2 : NetQueueInit.CurrentThread = currentThread
      · cases h3 : NetQueueInit.CreatedQueueObject with
        | none => simp [h1, h2, h3]
        | some obj => simp [h1, h2, h3]
      · cases h3 : NetQueueInit.CreatedQueueObject with
        | none => simp [h1, h2, h3]
        | some obj => simp [h1, h2, h3]
    · by_cases h2 : NetQueueInit.CurrentThread = currentThread
      · cases h3 : NetQueueInit.CreatedQueueObject with
        | none => simp [h1, h2, h3]
        | some obj => simp [h1, h2, h3]
      · cases h3 : NetQueueInit.CreatedQueueObject with
        | none => simp [h1, h2, h3]
        | some obj => simp [h1, h2, h3]
  · intro h1 h2 h3
    simp [h1, h2, h3]

/-! ## C6: reset attempts are bounded at five, failing flag is monotone -/

/-- In any single dispatch, the attempt counter never leaves `[0, 5]` and
the flag never goes back from `true` to `false`. -/
theorem dispatch_reset_step (s : NxDeviceResetState) (b : Bool)
    (h : s.m_ResetAttempts ≤ MAX_DEVICE_RESET_ATTEMPTS) :
    (DispatchDeviceReset s b).1.m_ResetAttempts ≤
      MAX_DEVICE_RESET_ATTEMPTS := by
  unfold DispatchDeviceReset SetFailingDeviceRequestingResetFlag
  split_ifs with h1 h2
  · exact h
  · simpa using h2
  · exact h

/-- Running requests from a state with a bounded attempt counter keeps the
counter bounded. -/
theorem runResets_bounded (reqs : List Bool) :
    ∀ s : NxDeviceResetState,
      s.m_ResetAttempts ≤ MAX_DEVICE_RESET_ATTEMPTS →
      (runResets s reqs).m_ResetAttempts ≤ MAX_DEVICE_RESET_ATTEMPTS := by
  induction reqs with
  | nil => intro s h; exact h
  | cons b bs ih =>
    intro s h
    exact ih _ (dispatch_reset_step s b h)

/-- C6: from the initial device state, after any sequence of reset requests
the attempt counter never exceeds `MAX_DEVICE_RESET_ATTEMPTS = 5`;
a dispatch never clears the failing-device flag once set (so the flag
transitions from `false` to `true` at most once and never back); a request
arriving with the attempts exhausted is rejected and sets the flag; and
the flag only becomes newly set by such an exhausted supported request. -/
theorem device_reset_attempts_bounded_flag_once (reqs : List Bool) :
    (runResets initialResetState reqs).m_ResetAttempts ≤
      MAX_DEVICE_RESET_ATTEMPTS ∧
    (∀ (s : NxDeviceResetState) (b : Bool),
      s.m_FailingDeviceRequestingReset = true →
      (DispatchDeviceReset s b).1.m_FailingDeviceRequestingReset = true) ∧
    (∀ s : NxDeviceResetState,
      s.m_ResetAttempts = MAX_DEVICE_RESET_ATTEMPTS →
      (DispatchDeviceReset s true).2 = false ∧
      (DispatchDeviceReset s true).1.m_FailingDeviceRequestingReset = true) ∧
    (∀ (s : NxDeviceResetState) (b : Bool),
      (DispatchDeviceReset s b).1.m_FailingDeviceRequestingReset = true →
      s.m_FailingDeviceRequestingReset = true ∨
        (MAX_DEVICE_RESET_ATTEMPTS ≤ s.m_ResetAttempts ∧ b = true)) := by
  refine ⟨runResets_bounded reqs initialResetState (by decide), ?_, ?_, ?_⟩
  · intro s b h
    unfold DispatchDeviceReset SetFailingDeviceRequestingResetFlag
    split_ifs <;> simp [h]
  · intro s h
    unfold DispatchDeviceReset SetFailingDeviceRequestingResetFlag
    rw [if_neg (by simp), if_neg (by omega)]
    exact ⟨rfl, rfl⟩
  · intro s b h
    unfold DispatchDeviceReset SetFailingDeviceRequestingResetFlag at h
    split_ifs at h with h1 h2
    · exact Or.inl h
    · exact Or.inl h
    · exact Or.inr ⟨by omega, by simpa using h1⟩

/-- Witness for C6: seven supported reset requests from the initial state
leave the attempt counter at five, reject the seventh request, and set the
failing-device flag. -/
theorem device_reset_attempts_bounded_flag_once_witness :
    (runResets initialResetState
        [true, true, true, true, true, true, true]).m_ResetAttempts ≤
      MAX_DEVICE_RESET_ATTEMPTS ∧
    (DispatchDeviceReset
        { m_ResetAttempts := 5, m_FailingDeviceRequestingReset := false }
        true).2 = false ∧
    (DispatchDeviceReset
        { m_ResetAttempts := 5, m_FailingDeviceRequestingReset := false }
        true).1.m_FailingDeviceRequestingReset = true :=
  ⟨(device_reset_attempts_bounded_flag_once
      [true, true, true, true, true, true, true]).1,
   ((device_reset_attempts_bounded_flag_once []).2.2.1
      { m_ResetAttempts := 5, m_FailingDeviceRequestingReset := false }
      rfl).1,
   ((device_reset_attempts_bounded_flag_once []).2.2.1
      { m_ResetAttempts := 5, m_FailingDeviceRequestingReset := false }
      rfl).2⟩

/-! ## C7: power references stay balanced despite failed acquisitions -/

/-- The outstanding reference count after a run equals the initial count
plus successful references minus dereferences. -/
theorem runPower_count (es : List PowerRefEvent) :
    ∀ s : PowerRefState,
      (runPower s es).powerRefCount =
        s.powerRefCount + (es.count .refSuccess : Int) -
          (es.count .deref : Int) := by
  induction es with
  | nil =>
    intro s
    simp [runPower]
  | cons e es ih =>
    intro s
    rw [runPower, ih]
    cases e <;>
      simp [stepPower, PowerReference, PowerDereference, List.count_cons] <;>
      ring

/-- C7: for any interleaving with as many successful `PowerReference` calls
as `PowerDereference` calls (and any number of failed references), the net
outstanding power reference count returns to zero; moreover a failed
reference increments only the failure counter and leaves the reference
count untouched. -/
theorem power_reference_balanced (es : List PowerRefEvent)
    (h : es.count .refSuccess = es.count .deref) :
    (runPower initialPowerState es).powerRefCount = 0 ∧
    (∀ s : PowerRefState,
      (PowerReference s false).powerRefCount = s.powerRefCount ∧
      (PowerReference s false).powerRefFailureCount =
        s.powerRefFailureCount + 1) := by
  constructor
  · rw [runPower_count es initialPowerState, h]
    simp [initialPowerState]
  · intro s
    constructor <;> rfl

/-- Witness for C7: one successful reference, one failed reference and one
dereference leave no outstanding references. -/
theorem power_reference_balanced_witness :
    (runPower initialPowerState
        [.refSuccess, .refFailure, .deref]).powerRefCount = 0 :=
  (power_reference_balanced [.refSuccess, .refFailure, .deref] (by decide)).1

/-! ## C1: cursor validity and occupancy invariant -/

/-- No ring-buffer operation changes the capacity. -/
theorem stepRB_count (x : NxRingBuffer α) (op : RBOp) :
    (x.stepRB op).Count = x.Count := by
  cases op with
  | peekGive => rfl
  | give =>
    simp only [NxRingBuffer.stepRB]
    split_ifs <;> rfl
  | take =>
    simp only [NxRingBuffer.stepRB]
    unfold NxRingBuffer.TakeNextPacketFromNic
    split_ifs <;> rfl
  | updateDepth => rfl
  | updatePacket p c => rfl
  | resetCounters => rfl

/-- Every ring-buffer operation preserves validity of the cursors. -/
theorem stepRB_valid (x : NxRingBuffer α) (op : RBOp) (h : x.Valid) :
    (x.stepRB op).Valid := by
  obtain ⟨hn, hb, he⟩ := h
  cases op with
  | peekGive => exact ⟨hn, hb, he⟩
  | give =>
    simp only [NxRingBuffer.stepRB]
    split_ifs
    · exact ⟨hn, hb, Nat.mod_lt _ hn⟩
    · exact ⟨hn, hb, he⟩
  | take =>
    simp only [NxRingBuffer.stepRB]
    unfold NxRingBuffer.TakeNextPacketFromNic
    split_ifs
    · exact ⟨hn, hb, he⟩
    · exact ⟨hn, hb, he⟩
  | updateDepth => exact ⟨hn, hb, he⟩
  | updatePacket p c => exact ⟨hn, hb, he⟩
  | resetCounters => exact ⟨hn, hb, he⟩

/-- Running any operation sequence preserves validity. -/
theorem runRB_valid (ops : List RBOp) :
    ∀ x : NxRingBuffer α, x.Valid → (x.runRB ops).Valid := by
  induction ops with
  | nil => intro x h; exact h
  | cons op ops ih =>
    intro x h
    exact ih _ (stepRB_valid x op h)

/-- C1: over any sequence of peek / guarded producer commit / consumer take
operations (and counter updates) started from a valid ring state, both
cursors remain valid indices in `[0, capacity)` and the occupancy
`(EndIndex + capacity - BeginIndex) % capacity` remains in
`[0, capacity - 1]`: it never reaches the capacity. -/
theorem ringbuffer_cursor_occupancy_invariant (x : NxRingBuffer α)
    (ops : List RBOp) (h : x.Valid) :
    (x.runRB ops).m_rb.BeginIndex < (x.runRB ops).Count ∧
    (x.runRB ops).m_rb.EndIndex < (x.runRB ops).Count ∧
    (x.runRB ops).GetRingbufferDepth ≤ (x.runRB ops).Count - 1 := by
  have hv := runRB_valid ops x h
  refine ⟨hv.2.1, hv.2.2, ?_⟩
  have := depth_lt_count _ hv
  omega

/-- Witness for C1: a concrete operation sequence on the capacity-8 ring
keeps the cursors valid and the occupancy below the capacity. -/
theorem ringbuffer_cursor_occupancy_invariant_witness :
    (witnessRing.runRB
        [.peekGive, .give, .give, .take, .updateDepth, .give,
         .take, .take]).m_rb.BeginIndex <
      (witnessRing.runRB
        [.peekGive, .give, .give, .take, .updateDepth, .give,
         .take, .take]).Count ∧
    (witnessRing.runRB
        [.peekGive, .give, .give, .take, .updateDepth, .give,
         .take, .take]).m_rb.EndIndex <
      (witnessRing.runRB
        [.peekGive, .give, .give, .take, .updateDepth, .give,
         .take, .take]).Count ∧
    (witnessRing.runRB
        [.peekGive, .give, .give, .take, .updateDepth, .give,
         .take, .take]).GetRingbufferDepth ≤
      (witnessRing.runRB
        [.peekGive, .give, .give, .take, .updateDepth, .give,
         .take, .take]).Count - 1 :=
  ringbuffer_cursor_occupancy_invariant witnessRing
    [.peekGive, .give, .give, .take, .updateDepth, .give, .take, .take]
    (by decide)

/-! ## C10: the three occupancy tallies partition the iteration count -/

/-- The counter balance: the three occupancy classification counters sum to
the iteration count. -/
def CounterBalance (x : NxRingBuffer α) : Prop :=
  x.m_rbCounters.RingbufferEmptyCount +
    x.m_rbCounters.RingbufferFullyOccupiedCount +
    x.m_rbCounters.RingbufferPartiallyOccupiedCount =
  x.m_rbCounters.IterationCountInLastInterval

/-- A single depth-counter update increments the iteration count by one and
exactly one of the three classification counters by one: the empty tally
when the depth is zero, the fully occupied tally when the depth is
`capacity - 1`, the partial tally otherwise. -/
theorem update_depth_counters_step (x : NxRingBuffer α) :
    (x.UpdateRingbufferDepthCounters).m_rbCounters.IterationCountInLastInterval =
      x.m_rbCounters.IterationCountInLastInterval + 1 ∧
    (x.UpdateRingbufferDepthCounters).m_rbCounters.RingbufferEmptyCount +
      (x.UpdateRingbufferDepthCounters).m_rbCounters.RingbufferFullyOccupiedCount +
      (x.UpdateRingbufferDepthCounters).m_rbCounters.RingbufferPartiallyOccupiedCount =
      x.m_rbCounters.RingbufferEmptyCount +
        x.m_rbCounters.RingbufferFullyOccupiedCount +
        x.m_rbCounters.RingbufferPartiallyOccupiedCount + 1 ∧
    (x.GetRingbufferDepth = 0 →
      (x.UpdateRingbufferDepthCounters).m_rbCounters.RingbufferEmptyCount =
        x.m_rbCounters.RingbufferEmptyCount + 1 ∧
      (x.UpdateRingbufferDepthCounters).m_rbCounters.RingbufferFullyOccupiedCount =
        x.m_rbCounters.RingbufferFullyOccupiedCount ∧
      (x.UpdateRingbufferDepthCounters).m_rbCounters.RingbufferPartiallyOccupiedCount =
        x.m_rbCounters.RingbufferPartiallyOccupiedCount) ∧
    (x.GetRingbufferDepth ≠ 0 → x.GetRingbufferDepth = x.Count - 1 →
      (x.UpdateRingbufferDepthCounters).m_rbCounters.RingbufferFullyOccupiedCount =
        x.m_rbCounters.RingbufferFullyOccupiedCount + 1 ∧
      (x.UpdateRingbufferDepthCounters).m_rbCounters.RingbufferEmptyCount =
        x.m_rbCounters.RingbufferEmptyCount ∧
      (x.UpdateRingbufferDepthCounters).m_rbCounters.RingbufferPartiallyOccupiedCount =
        x.m_rbCounters.RingbufferPartiallyOccupiedCount) ∧
    (x.GetRingbufferDepth ≠ 0 → x.GetRingbufferDepth ≠ x.Count - 1 →
      (x.UpdateRingbufferDepthCounters).m_rbCounters.RingbufferPartiallyOccupiedCount =
        x.m_rbCounters.RingbufferPartiallyOccupiedCount + 1 ∧
      (x.UpdateRingbufferDepthCounters).m_rbCounters.RingbufferEmptyCount =
        x.m_rbCounters.RingbufferEmptyCount ∧
      (x.UpdateRingbufferDepthCounters).m_rbCounters.RingbufferFullyOccupiedCount =
        x.m_rbCounters.RingbufferFullyOccupiedCount) := by
  unfold NxRingBuffer.UpdateRingbufferDepthCounters
  dsimp only
  split_ifs with h0 h1
  · exact ⟨rfl, by dsimp only; omega, fun _ => ⟨rfl, rfl, rfl⟩,
      fun hne _ => absurd h0 hne, fun hne _ => absurd h0 hne⟩
  · exact ⟨rfl, by dsimp only; omega, fun hz => absurd hz h0,
      fun _ _ => ⟨rfl, rfl, rfl⟩, fun _ hne => absurd h1 hne⟩
  · exact ⟨rfl, by dsimp only; omega, fun hz => absurd hz h0,
      fun _ heq => absurd heq h1, fun _ _ => ⟨rfl, rfl, rfl⟩⟩

/-- Every ring-buffer operation preserves the counter balance. -/
theorem stepRB_counter_balance (x : NxRingBuffer α) (op : RBOp)
    (h : CounterBalance x) : CounterBalance (x.stepRB op) := by
  cases op with
  | peekGive => exact h
  | give =>
    simp only [NxRingBuffer.stepRB]
    split_ifs <;> exact h
  | take =>
    simp only [NxRingBuffer.stepRB]
    unfold NxRingBuffer.TakeNextPacketFromNic
    split_ifs <;> exact h
  | updateDepth =>
    have hs := update_depth_counters_step x
    simp only [NxRingBuffer.stepRB]
    unfold CounterBalance at h ⊢
    omega
  | updatePacket p c => exact h
  | resetCounters =>
    unfold CounterBalance
    rfl

/-- Running any operation sequence preserves the counter balance. -/
theorem runRB_counter_balance (ops : List RBOp) :
    ∀ x : NxRingBuffer α, CounterBalance x → CounterBalance (x.runRB ops) := by
  induction ops with
  | nil => intro x h; exact h
  | cons op ops ih =>
    intro x h
    exact ih _ (stepRB_counter_balance x op h)

/-- C10: starting from a freshly reset counter state, after any sequence of
depth-counter updates interleaved with arbitrary cursor operations, the
empty, fully occupied and partially occupied tallies sum to the iteration
count; each update increments the iteration count and exactly one of the
three tallies, selected by the depth (`0`, `capacity - 1`, or other). -/
theorem depth_counter_sum_invariant (x : NxRingBuffer α) (ops : List RBOp) :
    ((x.ResetRingbufferCounters).runRB ops).m_rbCounters.RingbufferEmptyCount +
      ((x.ResetRingbufferCounters).runRB ops).m_rbCounters.RingbufferFullyOccupiedCount +
      ((x.ResetRingbufferCounters).runRB ops).m_rbCounters.RingbufferPartiallyOccupiedCount =
    ((x.ResetRingbufferCounters).runRB ops).m_rbCounters.IterationCountInLastInterval := by
  exact runRB_counter_balance ops x.ResetRingbufferCounters rfl

/-! ## C4: FIFO round trip -/

/-- The contents list has exactly `depth` elements. -/
theorem contents_length (x : NxRingBuffer α) :
    x.contents.length = x.GetRingbufferDepth := by
  unfold NxRingBuffer.contents
  rw [List.length_map, List.length_range]

/-- A committed produce raises the depth by one (arithmetic form). -/
theorem depth_succ_arith (n b e : Nat) (hb : b < n) (he : e < n)
    (hd : (e + n - b) % n < n - 1) :
    ((e + 1) % n + n - b) % n = (e + n - b) % n + 1 := by
  have h0 := small_mod (e + n - b) n (by omega)
  rw [h0] at hd ⊢
  rw [small_mod (e + 1) n (by omega)]
  by_cases h1 : e + 1 < n
  · rw [if_pos h1, small_mod (e + 1 + n - b) n (by omega)]
    split_ifs at hd ⊢ <;> omega
  · rw [if_neg h1, small_mod (e + 1 - n + n - b) n (by omega)]
    split_ifs at hd ⊢ <;> omega

/-- A committed take lowers the depth by one (arithmetic form). -/
theorem depth_pred_arith (n b e : Nat) (hb : b < n) (he : e < n)
    (hne : b ≠ e) :
    (e + n - (b + 1) % n) % n = (e + n - b) % n - 1 := by
  have h0 := small_mod (e + n - b) n (by omega)
  rw [h0]
  rw [small_mod (b + 1) n (by omega)]
  by_cases h1 : b + 1 < n
  · rw [if_pos h1, small_mod (e + n - (b + 1)) n (by omega)]
    split_ifs <;> omega
  · rw [if_neg h1, small_mod (e + n - (b + 1 - n)) n (by omega)]
    split_ifs <;> omega

/-- One producer cycle with room available appends the produced value to
the abstract contents. -/
theorem produceOne_spec (x : NxRingBuffer α) (v : α) (hv : x.Valid)
    (hd : x.GetRingbufferDepth < x.Count - 1) :
    ∃ x1, x.produceOne v = some x1 ∧ x1.Count = x.Count ∧ x1.Valid ∧
      x1.m_rb.BeginIndex = x.m_rb.BeginIndex ∧
      x1.m_rb.NextOSIndex = x.m_rb.NextOSIndex ∧
      x1.contents = x.contents ++ [v] := by
  obtain ⟨hn, hb, he⟩ := hv
  have hpeek : x.GetNextPacketToGiveToNic =
      some (NetRingGetPacketAtIndex x.m_rb x.m_rb.EndIndex) := by
    unfold NxRingBuffer.GetNextPacketToGiveToNic
      NxRingBuffer.AvailablePackets_Count
    rw [if_neg (by omega)]
  refine ⟨(x.writeSlot x.m_rb.EndIndex v).GiveNextPacketToNic, ?_, rfl,
    ⟨hn, hb, Nat.mod_lt _ hn⟩, rfl, rfl, ?_⟩
  · unfold NxRingBuffer.produceOne
    rw [hpeek]
  · have hdepth1 :
        ((x.writeSlot x.m_rb.EndIndex v).GiveNextPacketToNic).GetRingbufferDepth =
          x.GetRingbufferDepth + 1 := by
      show ((x.m_rb.EndIndex + 1) % x.Count + x.Count - x.m_rb.BeginIndex) %
          x.Count = x.GetRingbufferDepth + 1
      exact depth_succ_arith x.Count x.m_rb.BeginIndex x.m_rb.EndIndex hb he hd
    have hend := end_eq_begin_add_depth x ⟨hn, hb, he⟩
    have hdlt := depth_lt_count x ⟨hn, hb, he⟩
    unfold NxRingBuffer.contents
    rw [hdepth1, List.range_succ, List.map_append]
    congr 1
    · apply List.map_congr_left
      intro i hi
      have hi2 : i < x.GetRingbufferDepth := List.mem_range.mp hi
      show (if (x.m_rb.BeginIndex + i) % x.Count = x.m_rb.EndIndex then v
          else x.m_rb.slots ((x.m_rb.BeginIndex + i) % x.Count)) =
        x.m_rb.slots ((x.m_rb.BeginIndex + i) % x.Count)
      rw [if_neg]
      intro hcontra
      rw [hend] at hcontra
      have := add_mod_inj x.Count x.m_rb.BeginIndex i x.GetRingbufferDepth hb
        (lt_trans hi2 hdlt) hdlt hcontra
      omega
    · show [if (x.m_rb.BeginIndex + x.GetRingbufferDepth) % x.Count =
          x.m_rb.EndIndex then v
        else x.m_rb.slots
          ((x.m_rb.BeginIndex + x.GetRingbufferDepth) % x.Count)] = [v]
      rw [if_pos hend.symm]

/-- Producing a whole list with enough room appends it to the contents. -/
theorem produceMany_spec (vs : List α) :
    ∀ x : NxRingBuffer α, x.Valid →
      x.GetRingbufferDepth + vs.length ≤ x.Count - 1 →
      ∃ x1, x.produceMany vs = some x1 ∧ x1.Count = x.Count ∧ x1.Valid ∧
        x1.m_rb.BeginIndex = x.m_rb.BeginIndex ∧
        x1.m_rb.NextOSIndex = x.m_rb.NextOSIndex ∧
        x1.contents = x.contents ++ vs := by
  induction vs with
  | nil =>
    intro x hv _
    exact ⟨x, rfl, rfl, hv, rfl, rfl, by simp⟩
  | cons v vs ih =>
    intro x hv hlen
    obtain ⟨x1, h1, hc1, hv1, hbg1, hos1, hcont1⟩ :=
      produceOne_spec x v hv (by simp at hlen; omega)
    have hd1 : x1.GetRingbufferDepth = x.GetRingbufferDepth + 1 := by
      have hlen1 := congrArg List.length hcont1
      rw [contents_length, List.length_append, contents_length] at hlen1
      simpa using hlen1
    obtain ⟨x2, h2, hc2, hv2, hbg2, hos2, hcont2⟩ := ih x1 hv1 (by
      rw [hd1, hc1]
      simp at hlen
      omega)
    refine ⟨x2, ?_, by rw [hc2, hc1], hv2, by rw [hbg2, hbg1],
      by rw [hos2, hos1], ?_⟩
    · unfold NxRingBuffer.produceMany
      rw [h1]
      exact h2
    · rw [hcont2, hcont1]
      simp

/-- The reclaimable (os-side) contents list has exactly `osPendingDepth`
elements. -/
theorem osContents_length (x : NxRingBuffer α) :
    x.osContents.length = x.osPendingDepth := by
  unfold NxRingBuffer.osContents
  rw [List.length_map, List.length_range]

/-- A nonempty reclaimable list splits off the slot at the OS cursor. -/
theorem osContents_cons (x : NxRingBuffer α) (hd : x.osPendingDepth ≠ 0) :
    x.osContents = x.m_rb.slots ((x.GetNextOSIndex + 0) % x.Count) ::
      (List.map Nat.succ (List.range (x.osPendingDepth - 1))).map
        (fun i => x.m_rb.slots ((x.GetNextOSIndex + i) % x.Count)) := by
  unfold NxRingBuffer.osContents
  obtain ⟨k, hk⟩ : ∃ k, x.osPendingDepth = k + 1 :=
    ⟨x.osPendingDepth - 1, by omega⟩
  rw [hk]
  simp only [Nat.add_sub_cancel]
  rw [List.range_succ_eq_map, List.map_cons]

/-- One consumer cycle on a ring whose reclaimable packets start with `v`
returns `v`, advances only the OS cursor, and leaves the rest. -/
theorem osTakeOne_spec (x : NxRingBuffer α) (v : α) (rest : List α)
    (hn : 0 < x.Count) (hos : x.GetNextOSIndex < x.Count)
    (hb : x.m_rb.BeginIndex < x.Count)
    (hcont : x.osContents = v :: rest) :
    ∃ x1, x.TakeNextPacketFromNic = (some v, x1) ∧ x1.Count = x.Count ∧
      x1.GetNextOSIndex < x1.Count ∧
      x1.m_rb.BeginIndex = x.m_rb.BeginIndex ∧
      x1.m_rb.EndIndex = x.m_rb.EndIndex ∧
      x1.osContents = rest := by
  have hdpos : x.osPendingDepth ≠ 0 := by
    intro h0
    have hlen := osContents_length x
    rw [hcont, h0] at hlen
    simp at hlen
  have hne : x.GetNextOSIndex ≠ x.m_rb.BeginIndex := by
    intro heq
    apply hdpos
    show (x.m_rb.BeginIndex + x.Count - x.GetNextOSIndex) % x.Count = 0
    rw [heq]
    have h9 : x.m_rb.BeginIndex + x.Count - x.m_rb.BeginIndex = x.Count := by
      omega
    rw [h9, Nat.mod_self]
  have hsplit := (osContents_cons x hdpos).symm.trans hcont
  injection hsplit with hhead htail
  have hb0 : (x.GetNextOSIndex + 0) % x.Count = x.GetNextOSIndex := by
    rw [Nat.add_zero, Nat.mod_eq_of_lt hos]
  have hhead2 : NetRingGetPacketAtIndex x.m_rb x.GetNextOSIndex = v := by
    show x.m_rb.slots x.GetNextOSIndex = v
    rw [← hb0]
    exact hhead
  refine ⟨{ x with m_rb := { x.m_rb with
      NextOSIndex := NetRingIncrementIndex x.m_rb x.GetNextOSIndex } },
    ?_, rfl, Nat.mod_lt _ hn, rfl, rfl, ?_⟩
  · unfold NxRingBuffer.TakeNextPacketFromNic
    rw [if_neg hne, hhead2]
  · show (List.range ((x.m_rb.BeginIndex + x.Count -
        (x.GetNextOSIndex + 1) % x.Count) % x.Count)).map
      (fun i => x.m_rb.slots
        (((x.GetNextOSIndex + 1) % x.Count + i) % x.Count)) = rest
    rw [depth_pred_arith x.Count x.GetNextOSIndex x.m_rb.BeginIndex hos hb
      hne, ← htail]
    show (List.range (x.osPendingDepth - 1)).map
      (fun i => x.m_rb.slots
        (((x.GetNextOSIndex + 1) % x.Count + i) % x.Count)) = _
    rw [List.map_map]
    apply List.map_congr_left
    intro i hi
    show x.m_rb.slots (((x.GetNextOSIndex + 1) % x.Count + i) % x.Count) =
      x.m_rb.slots ((x.GetNextOSIndex + Nat.succ i) % x.Count)
    congr 1
    rw [Nat.mod_add_mod]
    congr 1
    omega

/-- Consuming as many packets as a prefix of the reclaimable list returns
exactly that prefix, advancing only the OS cursor. -/
theorem osConsumeMany_spec (vs : List α) :
    ∀ (x : NxRingBuffer α) (rest : List α), 0 < x.Count →
      x.GetNextOSIndex < x.Count → x.m_rb.BeginIndex < x.Count →
      x.osContents = vs ++ rest →
      (x.consumeMany vs.length).1 = vs ∧
      (x.consumeMany vs.length).2.osContents = rest ∧
      (x.consumeMany vs.length).2.m_rb.BeginIndex = x.m_rb.BeginIndex ∧
      (x.consumeMany vs.length).2.m_rb.EndIndex = x.m_rb.EndIndex ∧
      (x.consumeMany vs.length).2.Count = x.Count := by
  induction vs with
  | nil =>
    intro x rest hn hos hb hcont
    exact ⟨rfl, by simpa using hcont, rfl, rfl, rfl⟩
  | cons v vs ih =>
    intro x rest hn hos hb hcont
    obtain ⟨x1, h1, hc1, hos1, hbg1, he1, hcont1⟩ :=
      osTakeOne_spec x v (vs ++ rest) hn hos hb (by simpa using hcont)
    obtain ⟨ih1, ih2, ih3, ih4, ih5⟩ := ih x1 rest
      (by rw [hc1]; exact hn) hos1
      (by rw [hbg1, hc1]; exact hb)
      hcont1
    have hrun : x.consumeMany (v :: vs).length =
        (v :: (x1.consumeMany vs.length).1, (x1.consumeMany vs.length).2) := by
      show x.consumeMany (vs.length + 1) = _
      rw [NxRingBuffer.consumeMany, h1]
    rw [hrun]
    exact ⟨by rw [ih1], ih2, by rw [ih3, hbg1], by rw [ih4, he1],
      by rw [ih5, hc1]⟩

/-- After the NIC completes `k` packets, `BeginIndex` has advanced by `k`
modulo capacity and everything else is unchanged. -/
theorem nicCompleteMany_spec (k : Nat) :
    ∀ x : NxRingBuffer α, x.m_rb.BeginIndex < x.Count →
      (x.nicCompleteMany k).m_rb.BeginIndex =
        (x.m_rb.BeginIndex + k) % x.Count ∧
      (x.nicCompleteMany k).m_rb.EndIndex = x.m_rb.EndIndex ∧
      (x.nicCompleteMany k).m_rb.NextOSIndex = x.m_rb.NextOSIndex ∧
      (x.nicCompleteMany k).m_rb.slots = x.m_rb.slots ∧
      (x.nicCompleteMany k).Count = x.Count := by
  induction k with
  | zero =>
    intro x hb
    have h9 : (x.m_rb.BeginIndex + 0) % x.Count = x.m_rb.BeginIndex := by
      rw [Nat.add_zero, Nat.mod_eq_of_lt hb]
    exact ⟨h9.symm, rfl, rfl, rfl, rfl⟩
  | succ k ih =>
    intro x hb
    have hn : 0 < x.Count := by omega
    obtain ⟨i1, i2, i3, i4, i5⟩ := ih (x.nicCompleteOne) (Nat.mod_lt _ hn)
    refine ⟨?_, i2, i3, i4, i5⟩
    calc (x.nicCompleteMany (k + 1)).m_rb.BeginIndex
        = ((x.m_rb.BeginIndex + 1) % x.Count + k) % x.Count := i1
      _ = (x.m_rb.BeginIndex + (k + 1)) % x.Count := by
          rw [Nat.mod_add_mod]
          congr 1
          omega

/-- Advancing an index by `k < n` from a valid base spans distance `k`
(arithmetic form). -/
theorem mod_shift_depth (n b k : Nat) (hb : b < n) (hk : k < n) :
    ((b + k) % n + n - b) % n = k := by
  rw [small_mod (b + k) n (by omega)]
  by_cases h1 : b + k < n
  · rw [if_pos h1, small_mod (b + k + n - b) n (by omega)]
    split_ifs <;> omega
  · rw [if_neg h1, small_mod (b + k - n + n - b) n (by omega)]
    split_ifs <;> omega

/-- The empty capacity-8 ring with all three cursors at 0. -/
def emptyRing8 : NxRingBuffer Nat :=
  { m_rb :=
      { BeginIndex := 0, EndIndex := 0, NextOSIndex := 0
        NumberOfElements := 8, slots := fun _ => 0 }
    m_rbCounters :=
      { NumberOfNetPacketsProduced := 0, NumberOfNetPacketsConsumed := 0
        CumulativeRingBufferDepthInLastInterval := 0
        IterationCountInLastInterval := 0, RingbufferEmptyCount := 0
        RingbufferFullyOccupiedCount := 0
        RingbufferPartiallyOccupiedCount := 0 } }

/-- Counterexample to C4 as stated: producing one packet into the empty
capacity-8 ring and then performing one consumer take yields no packet
(the OS cursor still equals `BeginIndex`, which only the NIC advances) and
leaves the occupancy at 1, not 0 — without the NIC completing the packets,
the round trip fails. -/
theorem ringbuffer_fifo_roundtrip_counterexample :
    (emptyRing8.produceMany [1]).map
        (fun x1 =>
          ((x1.consumeMany 1).1, (x1.consumeMany 1).2.GetRingbufferDepth)) =
      some ([], 1) := rfl

/-- C4 (amended): starting from an empty ring (occupancy 0, OS cursor at
`BeginIndex`), producing the packets of `vs` (with
`vs.length ≤ capacity - 1`), letting the NIC complete those `vs.length`
packets (advancing `BeginIndex` past them), and then performing
`vs.length` consumer takes returns exactly `vs` in FIFO order, and the
final occupancy is 0. -/
theorem ringbuffer_fifo_roundtrip_after_nic (x : NxRingBuffer α)
    (vs : List α) (hv : x.Valid)
    (hosb : x.GetNextOSIndex = x.m_rb.BeginIndex)
    (h0 : x.GetRingbufferDepth = 0) (hlen : vs.length ≤ x.Count - 1) :
    ∃ x1, x.produceMany vs = some x1 ∧
      ((x1.nicCompleteMany vs.length).consumeMany vs.length).1 = vs ∧
      ((x1.nicCompleteMany vs.length).consumeMany
        vs.length).2.GetRingbufferDepth = 0 := by
  obtain ⟨hn, hb, he⟩ := hv
  have hempty : x.contents = [] := by
    have hl := contents_length x
    rw [h0] at hl
    exact List.length_eq_zero.mp hl
  obtain ⟨x1, h1, hc1, hv1, hbg1, hos1, hcont1⟩ :=
    produceMany_spec vs x ⟨hn, hb, he⟩ (by omega)
  rw [hempty, List.nil_append] at hcont1
  have hd1 : x1.GetRingbufferDepth = vs.length := by
    have hl := contents_length x1
    rw [hcont1] at hl
    exact hl.symm
  have hN : vs.length < x.Count := by omega
  have hend1 : x1.m_rb.EndIndex =
      (x.m_rb.BeginIndex + vs.length) % x.Count := by
    have hE := end_eq_begin_add_depth x1 hv1
    rw [hd1, hbg1, hc1] at hE
    exact hE
  obtain ⟨n1, n2, n3, n4, n5⟩ := nicCompleteMany_spec vs.length x1 hv1.2.1
  have hyB : (x1.nicCompleteMany vs.length).m_rb.BeginIndex =
      (x.m_rb.BeginIndex + vs.length) % x.Count := by
    rw [n1, hbg1, hc1]
  have hyE : (x1.nicCompleteMany vs.length).m_rb.EndIndex =
      (x.m_rb.BeginIndex + vs.length) % x.Count := by
    rw [n2, hend1]
  have hyC : (x1.nicCompleteMany vs.length).Count = x.Count := by
    rw [n5, hc1]
  have hyOS : (x1.nicCompleteMany vs.length).GetNextOSIndex =
      x.m_rb.BeginIndex := by
    show (x1.nicCompleteMany vs.length).m_rb.NextOSIndex = x.m_rb.BeginIndex
    rw [n3, hos1]
    exact hosb
  have hyD : (x1.nicCompleteMany vs.length).osPendingDepth = vs.length := by
    unfold NxRingBuffer.osPendingDepth
    rw [hyB, hyC, hyOS]
    exact mod_shift_depth x.Count x.m_rb.BeginIndex vs.length hb hN
  have hyCont : (x1.nicCompleteMany vs.length).osContents = vs := by
    have hstep : (x1.nicCompleteMany vs.length).osContents = x1.contents := by
      unfold NxRingBuffer.osContents NxRingBuffer.contents
      rw [hyD, hd1]
      apply List.map_congr_left
      intro i hi
      rw [n4, hyOS, hyC, hc1, hbg1]
    rw [hstep, hcont1]
  obtain ⟨c1, c2, c3, c4, c5⟩ :=
    osConsumeMany_spec vs (x1.nicCompleteMany vs.length) []
      (by rw [hyC]; exact hn)
      (by rw [hyOS, hyC]; exact hb)
      (by rw [hyB, hyC]; exact Nat.mod_lt _ hn)
      (by rw [hyCont, List.append_nil])
  refine ⟨x1, h1, c1, ?_⟩
  unfold NxRingBuffer.GetRingbufferDepth
  rw [c3, c4, c5, hyB, hyE, hyC]
  have hx : (x.m_rb.BeginIndex + vs.length) % x.Count + x.Count -
      (x.m_rb.BeginIndex + vs.length) % x.Count = x.Count := by omega
  rw [hx, Nat.mod_self]

/-- Witness for the amended C4: producing `[1, 2, 3]` into the empty
capacity-8 ring, letting the NIC complete the three packets, and taking
three packets returns `[1, 2, 3]` with final occupancy 0. -/
theorem ringbuffer_fifo_roundtrip_after_nic_witness :
    ∃ x1, witnessRing.produceMany [1, 2, 3] = some x1 ∧
      ((x1.nicCompleteMany 3).consumeMany 3).1 = [1, 2, 3] ∧
      ((x1.nicCompleteMany 3).consumeMany 3).2.GetRingbufferDepth = 0 :=
  ringbuffer_fifo_roundtrip_after_nic witnessRing [1, 2, 3] (by decide)
    (by decide) (by decide) (by decide)
